import Mathlib

/-!
Verification of the higher-order data structure core of the `ha` crate
(src/src/lib.rs), as a shallow embedding in Lean.

The crate provides:
- `Func<T, U>` (line 213), a shared thread-safe pure closure, embedded as a
  plain Lean function type;
- the `Ho`/`Call` traits (lines 228-242) with a blanket `Call` implementation
  that applies the handle to the argument, and the identity association
  `Ho<()>` (line 244) whose function type is the value type itself;
- `HPair` (lines 266-345): leaf instances on scalar pairs are the identity,
  fixed-array instances of arity 2-6 pair componentwise, and the `Vec`
  instance zips (truncating to the shorter length) and pairs recursively;
- `HMap` (lines 353-419): the leaf instance dispatches through `Call`,
  fixed-array instances of arity 2-6 map componentwise, and the `Vec`
  instance maps over the elements.

Fixed-size Rust arrays `[T; n]` are embedded as functions `Fin n → T`;
`Vec<T>` as `List T`.  Trait methods that recurse through a `(T, T): HPair`
or `T: HMap<U>` bound are embedded with the bound instance as an explicit
function parameter, so each theorem quantifies over every instance of the
bound.

The crate-level documentation example (lines 199-208) computes with `f64`.
For it we embed IEEE 754 binary64 arithmetic exactly: a float value is the
rational it denotes, and every operation rounds its exact rational result to
53 bits of precision with round-to-nearest, ties-to-even, which is what the
Rust `f64` operations do on the (normal, non-overflowing) values appearing
in the example.
-/

/-- Embeds `pub type Func<T, U> = Arc<dyn Fn(T) -> U + Send + Sync>` (line
213).  The closure is shared, immutable and pure, so it is a plain function. -/
def Func (T U : Type u) : Type u := T → U

/-- Embeds the blanket implementation `impl<T, U> Call<T> for U where
U: Ho<Arg<T>, Fun = Func<T, Self>>` (lines 239-242), whose body is
`fn call(f: &Self::Fun, val: T) -> Self { f(val) }`. -/
def Call.call {T U : Type} (f : Func T U) (val : T) : U := f val

/-- Embeds `impl<T: Clone> Ho<()> for T { type Fun = T; }` (line 244): at the
unit argument tag, the associated function type of any value type is the
value type itself. -/
def Ho.unitFun (T : Type u) : Type u := T

/-- Resolving a function counterpart against the unit tag: by line 244 the
counterpart of `T` at tag `()` is `T` itself, so resolution is the identity
coercion from `Ho.unitFun T` to `T`. -/
def Call.callUnit {T : Type u} (f : Ho.unitFun T) : T := f

/-- Embeds the twelve scalar leaf instances of `HPair` (lines 273-284), all
of which read `impl HPair for (K, K) { type Out = Self;
fn hpair(self) -> Self { self } }`. -/
def hpairLeaf {T : Type} (x : T × T) : T × T := x

/-- Embeds `impl<T> HPair for ([T; 2], [T; 2]) where (T, T): HPair` (lines
286-292); `hp` is the `hpair` method of the `(T, T): HPair` bound. -/
def hpair2 {α β : Type} (hp : α × α → β) (x y : Fin 2 → α) : Fin 2 → β :=
  ![hp (x 0, y 0), hp (x 1, y 1)]

/-- Embeds the arity-3 `HPair` array instance (lines 294-300). -/
def hpair3 {α β : Type} (hp : α × α → β) (x y : Fin 3 → α) : Fin 3 → β :=
  ![hp (x 0, y 0), hp (x 1, y 1), hp (x 2, y 2)]

/-- Embeds the arity-4 `HPair` array instance (lines 302-308). -/
def hpair4 {α β : Type} (hp : α × α → β) (x y : Fin 4 → α) : Fin 4 → β :=
  ![hp (x 0, y 0), hp (x 1, y 1), hp (x 2, y 2), hp (x 3, y 3)]

/-- Embeds the arity-5 `HPair` array instance (lines 310-322). -/
def hpair5 {α β : Type} (hp : α × α → β) (x y : Fin 5 → α) : Fin 5 → β :=
  ![hp (x 0, y 0), hp (x 1, y 1), hp (x 2, y 2), hp (x 3, y 3), hp (x 4, y 4)]

/-- Embeds the arity-6 `HPair` array instance (lines 324-337). -/
def hpair6 {α β : Type} (hp : α × α → β) (x y : Fin 6 → α) : Fin 6 → β :=
  ![hp (x 0, y 0), hp (x 1, y 1), hp (x 2, y 2), hp (x 3, y 3), hp (x 4, y 4),
    hp (x 5, y 5)]

/-- Embeds `impl<T> HPair for (Vec<T>, Vec<T>) where (T, T): HPair` (lines
339-345): `a.into_iter().zip(b.into_iter()).map(|n| n.hpair()).collect()`. -/
def hpairVec {α β : Type} (hp : α × α → β) (a b : List α) : List β :=
  (a.zip b).map hp

/-- Embeds the leaf instance `impl<T, U> HMap<U> for T where U: Call<T>`
(lines 360-366), whose body is `<U as Call<T>>::call(f, self)`; `callI` is
the `call` method of the `U: Call<T>` bound. -/
def hmapLeaf {T U F : Type} (callI : F → T → U) (v : T) (f : F) : U :=
  callI f v

/-- Embeds `impl<T, U> HMap<[U; 2]> for [T; 2] where T: HMap<U>` (lines
368-375); `hm` is the `hmap` method of the `T: HMap<U>` bound. -/
def hmap2 {α β φ : Type} (hm : α → φ → β) (x : Fin 2 → α) (f : φ) : Fin 2 → β :=
  ![hm (x 0) f, hm (x 1) f]

/-- Embeds the arity-3 `HMap` array instance (lines 377-384). -/
def hmap3 {α β φ : Type} (hm : α → φ → β) (x : Fin 3 → α) (f : φ) : Fin 3 → β :=
  ![hm (x 0) f, hm (x 1) f, hm (x 2) f]

/-- Embeds the arity-4 `HMap` array instance (lines 386-393). -/
def hmap4 {α β φ : Type} (hm : α → φ → β) (x : Fin 4 → α) (f : φ) : Fin 4 → β :=
  ![hm (x 0) f, hm (x 1) f, hm (x 2) f, hm (x 3) f]

/-- Embeds the arity-5 `HMap` array instance (lines 395-402). -/
def hmap5 {α β φ : Type} (hm : α → φ → β) (x : Fin 5 → α) (f : φ) : Fin 5 → β :=
  ![hm (x 0) f, hm (x 1) f, hm (x 2) f, hm (x 3) f, hm (x 4) f]

/-- Embeds the arity-6 `HMap` array instance (lines 404-411). -/
def hmap6 {α β φ : Type} (hm : α → φ → β) (x : Fin 6 → α) (f : φ) : Fin 6 → β :=
  ![hm (x 0) f, hm (x 1) f, hm (x 2) f, hm (x 3) f, hm (x 4) f, hm (x 5) f]

/-- Embeds `impl<T, U> HMap<Vec<U>> for Vec<T> where T: HMap<U>` (lines
413-419): `self.into_iter().map(|n| n.hmap(f)).collect()`. -/
def hmapVec {α β φ : Type} (hm : α → φ → β) (l : List α) (f : φ) : List β :=
  l.map fun n => hm n f

/- Pointwise evaluation lemmas for the fixed-arity instances. -/

theorem hpair2_apply {α β : Type} (hp : α × α → β) (x y : Fin 2 → α)
    (i : Fin 2) : hpair2 hp x y i = hp (x i, y i) := by
  fin_cases i <;> rfl

theorem hpair3_apply {α β : Type} (hp : α × α → β) (x y : Fin 3 → α)
    (i : Fin 3) : hpair3 hp x y i = hp (x i, y i) := by
  fin_cases i <;> rfl

theorem hpair4_apply {α β : Type} (hp : α × α → β) (x y : Fin 4 → α)
    (i : Fin 4) : hpair4 hp x y i = hp (x i, y i) := by
  fin_cases i <;> rfl

theorem hpair5_apply {α β : Type} (hp : α × α → β) (x y : Fin 5 → α)
    (i : Fin 5) : hpair5 hp x y i = hp (x i, y i) := by
  fin_cases i <;> rfl

theorem hpair6_apply {α β : Type} (hp : α × α → β) (x y : Fin 6 → α)
    (i : Fin 6) : hpair6 hp x y i = hp (x i, y i) := by
  fin_cases i <;> rfl

theorem hmap2_apply {α β φ : Type} (hm : α → φ → β) (x : Fin 2 → α) (f : φ)
    (i : Fin 2) : hmap2 hm x f i = hm (x i) f := by
  fin_cases i <;> rfl

theorem hmap3_apply {α β φ : Type} (hm : α → φ → β) (x : Fin 3 → α) (f : φ)
    (i : Fin 3) : hmap3 hm x f i = hm (x i) f := by
  fin_cases i <;> rfl

theorem hmap4_apply {α β φ : Type} (hm : α → φ → β) (x : Fin 4 → α) (f : φ)
    (i : Fin 4) : hmap4 hm x f i = hm (x i) f := by
  fin_cases i <;> rfl

theorem hmap5_apply {α β φ : Type} (hm : α → φ → β) (x : Fin 5 → α) (f : φ)
    (i : Fin 5) : hmap5 hm x f i = hm (x i) f := by
  fin_cases i <;> rfl

theorem hmap6_apply {α β φ : Type} (hm : α → φ → β) (x : Fin 6 → α) (f : φ)
    (i : Fin 6) : hmap6 hm x f i = hm (x i) f := by
  fin_cases i <;> rfl

/- Elementwise evaluation lemmas for the Vec instances. -/

theorem hmapVec_getElem {α β φ : Type} (hm : α → φ → β) (l : List α) (f : φ)
    (i : ℕ) : (hmapVec hm l f)[i]? = l[i]?.map fun n => hm n f := by
  simp [hmapVec, List.getElem?_map]

theorem hpairVec_getElem {α β : Type} (hp : α × α → β) :
    ∀ (a b : List α) (i : ℕ),
      (hpairVec hp a b)[i]? = a[i]?.bind fun x => b[i]?.map fun y => hp (x, y)
  | [], _, _ => by simp [hpairVec]
  | _ :: _, [], i => by simp [hpairVec]
  | _ :: _, _ :: _, 0 => by simp [hpairVec, List.zip_cons_cons]
  | x :: xs, y :: ys, i + 1 => by
    simpa [hpairVec, List.zip_cons_cons] using hpairVec_getElem hp xs ys i

/- Exact model of IEEE 754 binary64 arithmetic, for the crate documentation
example (lines 199-208).  A float value is represented by the rational number
it denotes; every arithmetic operation rounds the exact rational result to a
53-bit significand with round-to-nearest, ties-to-even.  All values in the
example are normal and far from overflow or underflow, so this is exactly
what the Rust `f64` operations compute. -/

/-- Integer power of two, as a rational. -/
def pow2 (e : ℤ) : ℚ := 2 ^ e

/-- Fuel-driven floor of log base 2 for rationals at least 1: counts how
often the value can be halved before dropping below 2. -/
def ilogDn : ℕ → ℚ → ℤ
  | 0, _ => 0
  | f + 1, q => if q < 2 then 0 else ilogDn f (q / 2) + 1

/-- Fuel-driven helper for rationals below 1: counts how often the value must
be doubled to reach 1; the floor of log base 2 is its negation. -/
def ilogUp : ℕ → ℚ → ℤ
  | 0, _ => 0
  | f + 1, q => if 1 ≤ q then 0 else ilogUp f (q * 2) + 1

/-- Floor of log base 2 of a positive rational (64 halvings or doublings of
fuel suffice for every value occurring in the example). -/
def ilog2 (q : ℚ) : ℤ := if 1 ≤ q then ilogDn 64 q else - ilogUp 64 q

/-- Round a rational to the nearest integer, ties to even. -/
def rne (x : ℚ) : ℤ :=
  let f : ℤ := ⌊x⌋
  if x - f < 1/2 then f
  else if (1:ℚ)/2 < x - f then f + 1
  else if f % 2 = 0 then f else f + 1

/-- Round an exact rational to the nearest IEEE 754 binary64 value (normal
range): scale to a 53-bit significand in `[2^52, 2^53)` and round to nearest,
ties to even. -/
def round64 (q : ℚ) : ℚ :=
  if q = 0 then 0
  else
    let e : ℤ := ilog2 |q| - 52
    (rne (q / pow2 e) : ℚ) * pow2 e

/-- Binary64 addition: exact sum, then rounding. -/
def fadd (a b : ℚ) : ℚ := round64 (a + b)

/-- Binary64 subtraction: exact difference, then rounding. -/
def fsub (a b : ℚ) : ℚ := round64 (a - b)

/-- Binary64 multiplication: exact product, then rounding. -/
def fmul (a b : ℚ) : ℚ := round64 (a * b)

/-- The Rust `%` operator on `f64` (an exact operation in IEEE 754): here
stated for nonnegative operands, where truncation and floor agree. -/
def frem (x y : ℚ) : ℚ := x - y * (⌊x / y⌋ : ℚ)

/-- A decimal `f64` literal: the source text denotes the nearest binary64
value of the written rational. -/
def flit (q : ℚ) : ℚ := round64 q

/-- Embeds the closure `in_between` of the crate documentation example (lines
200-203): `move |(a, b)| { if b < a { b += 1.0 }; (a + (b - a) * 0.5) % 1.0 }`
over `f64`. -/
def in_between (ab : ℚ × ℚ) : ℚ :=
  let a := ab.1
  let b := if ab.2 < a then fadd ab.2 (flit 1) else ab.2
  frem (fadd a (fmul (fsub b a) (flit (1/2)))) (flit 1)

/- Evaluation lemmas for the binary64 model. -/

theorem round64_eval (q : ℚ) (e : ℤ) (hq : 0 < q) (he : ilog2 q - 52 = e) :
    round64 q = (rne (q / pow2 e) : ℚ) * pow2 e := by
  rw [round64, if_neg (ne_of_gt hq)]
  show (rne (q / pow2 (ilog2 |q| - 52)) : ℚ) * pow2 (ilog2 |q| - 52) = _
  rw [abs_of_pos hq, he]

theorem rne_low (x : ℚ) (f : ℤ) (hf : ⌊x⌋ = f) (h : x - f < 1/2) :
    rne x = f := by
  simp only [rne, hf]
  rw [if_pos h]

theorem rne_high (x : ℚ) (f : ℤ) (hf : ⌊x⌋ = f) (h : (1:ℚ)/2 < x - f) :
    rne x = f + 1 := by
  simp only [rne, hf]
  rw [if_neg (by linarith), if_pos h]

theorem rne_tie (x : ℚ) (f : ℤ) (hf : ⌊x⌋ = f) (h : x - f = 1/2) :
    rne x = if f % 2 = 0 then f else f + 1 := by
  simp only [rne, hf]
  rw [if_neg (by rw [h]; norm_num), if_neg (by rw [h]; norm_num)]

/- The six decimal literals of the example, as exact binary64 values. -/

theorem flit_half : flit (1/2) = 1/2 := by
  rw [flit, round64_eval _ (-53) (by norm_num) (by norm_num [ilog2, ilogUp]),
      rne_low _ 4503599627370496 (by norm_num [pow2]) (by norm_num [pow2])]
  norm_num [pow2]

theorem flit_one : flit 1 = 1 := by
  rw [flit, round64_eval _ (-52) (by norm_num) (by norm_num [ilog2, ilogDn]),
      rne_low _ 4503599627370496 (by norm_num [pow2]) (by norm_num [pow2])]
  norm_num [pow2]

theorem flit_07 : flit (7/10) = 3152519739159347/4503599627370496 := by
  rw [flit, round64_eval _ (-53) (by norm_num) (by norm_num [ilog2, ilogUp]),
      rne_low _ 6305039478318694 (by norm_num [pow2]) (by norm_num [pow2])]
  norm_num [pow2]

theorem flit_09 : flit (9/10) = 8106479329266893/9007199254740992 := by
  rw [flit, round64_eval _ (-53) (by norm_num) (by norm_num [ilog2, ilogUp]),
      rne_high _ 8106479329266892 (by norm_num [pow2]) (by norm_num [pow2])]
  norm_num [pow2]

theorem flit_01 : flit (1/10) = 3602879701896397/36028797018963968 := by
  rw [flit, round64_eval _ (-56) (by norm_num) (by norm_num [ilog2, ilogUp]),
      rne_high _ 7205759403792793 (by norm_num [pow2]) (by norm_num [pow2])]
  norm_num [pow2]

theorem flit_08 : flit (8/10) = 3602879701896397/4503599627370496 := by
  rw [flit, round64_eval _ (-53) (by norm_num) (by norm_num [ilog2, ilogUp]),
      rne_high _ 7205759403792793 (by norm_num [pow2]) (by norm_num [pow2])]
  norm_num [pow2]

/- The intermediate binary64 operations of the example, first component
(a, b) = (0.7, 0.9), where b does not wrap. -/

theorem step_s1 :
    fsub (8106479329266893/9007199254740992) (3152519739159347/4503599627370496)
      = 1801439850948199/9007199254740992 := by
  rw [fsub, show (8106479329266893/9007199254740992 : ℚ)
        - 3152519739159347/4503599627370496
      = 1801439850948199/9007199254740992 from by norm_num,
    round64_eval _ (-55) (by norm_num) (by norm_num [ilog2, ilogUp]),
    rne_low _ 7205759403792796 (by norm_num [pow2]) (by norm_num [pow2])]
  norm_num [pow2]

theorem step_m1 :
    fmul (1801439850948199/9007199254740992) (1/2)
      = 1801439850948199/18014398509481984 := by
  rw [fmul, show (1801439850948199/9007199254740992 : ℚ) * (1/2)
      = 1801439850948199/18014398509481984 from by norm_num,
    round64_eval _ (-56) (by norm_num) (by norm_num [ilog2, ilogUp]),
    rne_low _ 7205759403792796 (by norm_num [pow2]) (by norm_num [pow2])]
  norm_num [pow2]

theorem step_r1 :
    fadd (3152519739159347/4503599627370496) (1801439850948199/18014398509481984)
      = 3602879701896397/4503599627370496 := by
  rw [fadd, show (3152519739159347/4503599627370496 : ℚ)
        + 1801439850948199/18014398509481984
      = 14411518807585587/18014398509481984 from by norm_num,
    round64_eval _ (-53) (by norm_num) (by norm_num [ilog2, ilogUp]),
    rne_tie _ 7205759403792793 (by norm_num [pow2]) (by norm_num [pow2])]
  norm_num [pow2]

/- Second component (a, b) = (0.9, 0.1), where b wraps by 1.0. -/

theorem step_b2 :
    fadd (3602879701896397/36028797018963968) 1
      = 2476979795053773/2251799813685248 := by
  rw [fadd, show (3602879701896397/36028797018963968 : ℚ) + 1
      = 39631676720860365/36028797018963968 from by norm_num,
    round64_eval _ (-52) (by norm_num) (by norm_num [ilog2, ilogDn]),
    rne_high _ 4953959590107545 (by norm_num [pow2]) (by norm_num [pow2])]
  norm_num [pow2]

theorem step_s2 :
    fsub (2476979795053773/2251799813685248) (8106479329266893/9007199254740992)
      = 1801439850948199/9007199254740992 := by
  rw [fsub, show (2476979795053773/2251799813685248 : ℚ)
        - 8106479329266893/9007199254740992
      = 1801439850948199/9007199254740992 from by norm_num,
    round64_eval _ (-55) (by norm_num) (by norm_num [ilog2, ilogUp]),
    rne_low _ 7205759403792796 (by norm_num [pow2]) (by norm_num [pow2])]
  norm_num [pow2]

theorem step_r2 :
    fadd (8106479329266893/9007199254740992) (1801439850948199/18014398509481984)
      = 1 := by
  rw [fadd, show (8106479329266893/9007199254740992 : ℚ)
        + 1801439850948199/18014398509481984
      = 18014398509481985/18014398509481984 from by norm_num,
    round64_eval _ (-52) (by norm_num) (by norm_num [ilog2, ilogDn]),
    rne_low _ 4503599627370496 (by norm_num [pow2]) (by norm_num [pow2])]
  norm_num [pow2]

theorem frem_r1 :
    frem (3602879701896397/4503599627370496) 1
      = 3602879701896397/4503599627370496 := by
  rw [frem]
  norm_num

theorem frem_r2 : frem 1 1 = 0 := by
  rw [frem]
  norm_num

/-- Value of the example closure on the first paired component. -/
theorem in_between_fst : in_between (flit (7/10), flit (9/10)) = flit (8/10) := by
  simp only [in_between]
  rw [flit_07, flit_09, flit_08, flit_half, flit_one]
  rw [if_neg (by norm_num)]
  rw [step_s1, step_m1, step_r1, frem_r1]

/-- Value of the example closure on the second paired component. -/
theorem in_between_snd : in_between (flit (9/10), flit (1/10)) = 0 := by
  simp only [in_between]
  rw [flit_09, flit_01, flit_half, flit_one]
  rw [if_pos (by norm_num)]
  rw [step_b2, step_s2, step_m1, step_r2, frem_r2]

/- Claim theorems. -/

/-- C1: the Vec instance of Pairwise Transposition returns a sequence of
length `min (length left) (length right)` whose element `i` is the recursive
pairing of `left[i]` with `right[i]` for every `i` below that minimum;
elements of the longer operand beyond the shorter length are dropped, and in
particular pairing `[1, 2, 3]` with `[4, 5]` at the leaf level yields the
2-element result `[(1, 4), (2, 5)]`. -/
theorem hpair_vec_truncating_zip {α β : Type} (hp : α × α → β) (a b : List α) :
    (hpairVec hp a b).length = min a.length b.length
    ∧ (∀ (i : ℕ) (x y : α), a[i]? = some x → b[i]? = some y →
        (hpairVec hp a b)[i]? = some (hp (x, y)))
    ∧ (∀ i : ℕ, min a.length b.length ≤ i → (hpairVec hp a b)[i]? = none)
    ∧ hpairVec hpairLeaf [(1:ℤ), 2, 3] [4, 5] = [(1, 4), (2, 5)] := by
  refine ⟨?_, ?_, ?_, ?_⟩
  · simp [hpairVec]
  · intro i x y hx hy
    rw [hpairVec_getElem, hx, hy]
    rfl
  · intro i hi
    rw [hpairVec_getElem]
    rcases min_le_iff.mp hi with h | h
    · rw [List.getElem?_eq_none h]
      rfl
    · rw [List.getElem?_eq_none h]
      cases a[i]? <;> rfl
  · rfl

/-- Closed instance of C1: pairing `[1, 2, 3]` with `[4, 5]` gives `(1, 4)`
at position 0 and nothing at position 2. -/
theorem hpair_vec_truncating_zip_app :
    (hpairVec hpairLeaf [(1:ℤ), 2, 3] [4, 5])[0]? = some (1, 4)
    ∧ (hpairVec hpairLeaf [(1:ℤ), 2, 3] [4, 5])[2]? = none :=
  ⟨(hpair_vec_truncating_zip hpairLeaf [1, 2, 3] [4, 5]).2.1 0 1 4 rfl rfl,
   (hpair_vec_truncating_zip hpairLeaf [1, 2, 3] [4, 5]).2.2.1 2 (by decide)⟩

/-- C2: in exact IEEE 754 binary64 arithmetic, pairing `[0.7, 0.9]` with
`[0.9, 0.1]` gives `[(0.7, 0.9), (0.9, 0.1)]`, and mapping the example
closure `in_between` over the paired array through the leaf `HMap`/`Call`
dispatch gives exactly `[0.8, 0.0]` (the binary64 value of the literal 0.8,
and zero). -/
theorem hpair_hmap_in_between_exact :
    hpair2 hpairLeaf ![flit (7/10), flit (9/10)] ![flit (9/10), flit (1/10)]
      = ![(flit (7/10), flit (9/10)), (flit (9/10), flit (1/10))]
    ∧ hmap2 (fun v g => hmapLeaf Call.call v g)
        (hpair2 hpairLeaf ![flit (7/10), flit (9/10)] ![flit (9/10), flit (1/10)])
        in_between
      = ![flit (8/10), 0] := by
  constructor
  · funext i
    fin_cases i <;> rfl
  · funext i
    fin_cases i
    · show in_between (flit (7/10), flit (9/10)) = flit (8/10)
      exact in_between_fst
    · show in_between (flit (9/10), flit (1/10)) = 0
      exact in_between_snd

/-- C3: the identity law of the Function-Association Protocol — the function
counterpart of any value type at the unit argument tag is the value type
itself, and resolving such a counterpart is a no-op pass-through. -/
theorem ho_unit_identity_law (V : Type) :
    Ho.unitFun V = V ∧ ∀ v : V, Call.callUnit v = v :=
  ⟨rfl, fun _ => rfl⟩

/-- C4: the blanket leaf rule of the Call Protocol — for every argument type
`X`, scalar kind `K`, handle `h` and argument `x`, `call h x` is exactly
`h x`, with no added transformation. -/
theorem call_blanket_leaf_rule {X K : Type} (h : Func X K) (x : X) :
    Call.call h x = h x := rfl

/-- C5: the leaf rule of Structural Map — mapping a leaf value `v` with a
function counterpart `f` equals dispatching through the `call` method of the
`Call` bound, `hmap v f = call f v`, for every `Call` instance. -/
theorem hmap_leaf_dispatch_rule {T U F : Type} (callI : F → T → U) (v : T)
    (f : F) : hmapLeaf callI v f = callI f v := rfl

/-- C6: fixed-array Pairwise Transposition — for every arity in 2..6 and all
same-arity operands, element `i` of the result is the recursive pairing of
`left[i]` with `right[i]`, positionally, for every index; the output arity
equals the input arity by the result type `Fin n → β`. -/
theorem hpair_fixed_array_pointwise {α β : Type} (hp : α × α → β) :
    (∀ (x y : Fin 2 → α) (i : Fin 2), hpair2 hp x y i = hp (x i, y i))
    ∧ (∀ (x y : Fin 3 → α) (i : Fin 3), hpair3 hp x y i = hp (x i, y i))
    ∧ (∀ (x y : Fin 4 → α) (i : Fin 4), hpair4 hp x y i = hp (x i, y i))
    ∧ (∀ (x y : Fin 5 → α) (i : Fin 5), hpair5 hp x y i = hp (x i, y i))
    ∧ (∀ (x y : Fin 6 → α) (i : Fin 6), hpair6 hp x y i = hp (x i, y i)) :=
  ⟨hpair2_apply hp, hpair3_apply hp, hpair4_apply hp, hpair5_apply hp,
   hpair6_apply hp⟩

/-- C7: shape preservation of Structural Map — on a fixed array of arity
2..6 the result has exactly that many elements, and on a variable-length
sequence the result has exactly the length of the input. -/
theorem hmap_shape_preservation {α β φ : Type} (hm : α → φ → β) (f : φ) :
    (∀ x : Fin 2 → α, (List.ofFn (hmap2 hm x f)).length = 2)
    ∧ (∀ x : Fin 3 → α, (List.ofFn (hmap3 hm x f)).length = 3)
    ∧ (∀ x : Fin 4 → α, (List.ofFn (hmap4 hm x f)).length = 4)
    ∧ (∀ x : Fin 5 → α, (List.ofFn (hmap5 hm x f)).length = 5)
    ∧ (∀ x : Fin 6 → α, (List.ofFn (hmap6 hm x f)).length = 6)
    ∧ (∀ l : List α, (hmapVec hm l f).length = l.length) := by
  refine ⟨fun x => ?_, fun x => ?_, fun x => ?_, fun x => ?_, fun x => ?_,
    fun l => ?_⟩
  all_goals simp [hmapVec]

/-- C8: positional correspondence and noninterference — the result of
Structural Map or Pairwise Transposition at position `i` depends only on the
input element(s) at position `i`: two inputs that agree at `i` produce
outputs that agree at `i`, over the Vec instances and every fixed-array
arity. -/
theorem positional_noninterference {α β γ φ : Type} (hm : α → φ → β) (f : φ)
    (hp : α × α → γ) :
    (∀ (l1 l2 : List α) (i : ℕ), l1[i]? = l2[i]? →
        (hmapVec hm l1 f)[i]? = (hmapVec hm l2 f)[i]?)
    ∧ (∀ (a1 b1 a2 b2 : List α) (i : ℕ), a1[i]? = a2[i]? → b1[i]? = b2[i]? →
        (hpairVec hp a1 b1)[i]? = (hpairVec hp a2 b2)[i]?)
    ∧ (∀ (x1 x2 y1 y2 : Fin 2 → α) (i : Fin 2), x1 i = x2 i → y1 i = y2 i →
        hpair2 hp x1 y1 i = hpair2 hp x2 y2 i)
    ∧ (∀ (x1 x2 y1 y2 : Fin 3 → α) (i : Fin 3), x1 i = x2 i → y1 i = y2 i →
        hpair3 hp x1 y1 i = hpair3 hp x2 y2 i)
    ∧ (∀ (x1 x2 y1 y2 : Fin 4 → α) (i : Fin 4), x1 i = x2 i → y1 i = y2 i →
        hpair4 hp x1 y1 i = hpair4 hp x2 y2 i)
    ∧ (∀ (x1 x2 y1 y2 : Fin 5 → α) (i : Fin 5), x1 i = x2 i → y1 i = y2 i →
        hpair5 hp x1 y1 i = hpair5 hp x2 y2 i)
    ∧ (∀ (x1 x2 y1 y2 : Fin 6 → α) (i : Fin 6), x1 i = x2 i → y1 i = y2 i →
        hpair6 hp x1 y1 i = hpair6 hp x2 y2 i)
    ∧ (∀ (x1 x2 : Fin 2 → α) (i : Fin 2), x1 i = x2 i →
        hmap2 hm x1 f i = hmap2 hm x2 f i)
    ∧ (∀ (x1 x2 : Fin 3 → α) (i : Fin 3), x1 i = x2 i →
        hmap3 hm x1 f i = hmap3 hm x2 f i)
    ∧ (∀ (x1 x2 : Fin 4 → α) (i : Fin 4), x1 i = x2 i →
        hmap4 hm x1 f i = hmap4 hm x2 f i)
    ∧ (∀ (x1 x2 : Fin 5 → α) (i : Fin 5), x1 i = x2 i →
        hmap5 hm x1 f i = hmap5 hm x2 f i)
    ∧ (∀ (x1 x2 : Fin 6 → α) (i : Fin 6), x1 i = x2 i →
        hmap6 hm x1 f i = hmap6 hm x2 f i) := by
  refine ⟨?_, ?_, ?_, ?_, ?_, ?_, ?_, ?_, ?_, ?_, ?_, ?_⟩
  · intro l1 l2 i h
    rw [hmapVec_getElem, hmapVec_getElem, h]
  · intro a1 b1 a2 b2 i h1 h2
    rw [hpairVec_getElem, hpairVec_getElem, h1, h2]
  · intro x1 x2 y1 y2 i h1 h2
    rw [hpair2_apply, hpair2_apply, h1, h2]
  · intro x1 x2 y1 y2 i h1 h2
    rw [hpair3_apply, hpair3_apply, h1, h2]
  · intro x1 x2 y1 y2 i h1 h2
    rw [hpair4_apply, hpair4_apply, h1, h2]
  · intro x1 x2 y1 y2 i h1 h2
    rw [hpair5_apply, hpair5_apply, h1, h2]
  · intro x1 x2 y1 y2 i h1 h2
    rw [hpair6_apply, hpair6_apply, h1, h2]
  · intro x1 x2 i h
    rw [hmap2_apply, hmap2_apply, h]
  · intro x1 x2 i h
    rw [hmap3_apply, hmap3_apply, h]
  · intro x1 x2 i h
    rw [hmap4_apply, hmap4_apply, h]
  · intro x1 x2 i h
    rw [hmap5_apply, hmap5_apply, h]
  · intro x1 x2 i h
    rw [hmap6_apply, hmap6_apply, h]

/-- Closed instance of C8: two sequences that agree at position 0 map to
sequences that agree at position 0, and two array pairs that agree at
position 0 transpose to arrays that agree at position 0. -/
theorem positional_noninterference_app :
    (hmapVec (fun (n : ℤ) (g : ℤ → ℤ) => g n) [1, 2] (fun z => z + 1))[0]?
      = (hmapVec (fun (n : ℤ) (g : ℤ → ℤ) => g n) [1, 3] (fun z => z + 1))[0]?
    ∧ hpair2 hpairLeaf ![(1:ℤ), 2] ![3, 4] 0 = hpair2 hpairLeaf ![1, 5] ![3, 6] 0 :=
  ⟨(positional_noninterference (fun (n : ℤ) (g : ℤ → ℤ) => g n) (fun z => z + 1)
      hpairLeaf).1 [1, 2] [1, 3] 0 rfl,
   (positional_noninterference (fun (n : ℤ) (g : ℤ → ℤ) => g n) (fun z => z + 1)
      hpairLeaf).2.2.1 ![1, 2] ![1, 5] ![3, 4] ![3, 6] 0 rfl rfl⟩

/-- C9: handle-failure propagation — with a fallible handle embedded as an
`Except`-valued function, the blanket `call` fails exactly when the handle
fails on that argument, and the failure value reaches the caller unchanged;
the protocol adds no handling of its own. -/
theorem call_failure_propagation {X K E : Type} (h : Func X (Except E K))
    (x : X) :
    Call.call h x = h x
    ∧ (∀ e : E, Call.call h x = Except.error e ↔ h x = Except.error e)
    ∧ (∀ k : K, Call.call h x = Except.ok k ↔ h x = Except.ok k) :=
  ⟨rfl, fun _ => Iff.rfl, fun _ => Iff.rfl⟩

/-- C10: Structural Map on variable-length sequences is a list homomorphism —
it sends the empty sequence to the empty sequence, distributes over
concatenation, and equals the standard elementwise map of the element-level
`hmap`. -/
theorem hmapVec_list_homomorphism {α β φ : Type} (hm : α → φ → β) (f : φ) :
    hmapVec hm ([] : List α) f = []
    ∧ (∀ v w : List α, hmapVec hm (v ++ w) f = hmapVec hm v f ++ hmapVec hm w f)
    ∧ (∀ l : List α, hmapVec hm l f = l.map fun n => hm n f) := by
  refine ⟨rfl, fun v w => ?_, fun l => rfl⟩
  simp [hmapVec]
